import Mathlib

/-!
Verification of the ZMK keymap formatter (scripts/zmk_format.py).

The Python source is shallowly embedded: every function below mirrors the
corresponding Python function of the same (snake_case) name; helper
definitions model Python string primitives (strip, rstrip, ljust, split,
str.join, str.count) and the few concrete regular expressions the script
uses.  Machine integers do not occur; Python ints that can go negative
(delimiter depth counters) are modelled as Int, all others as Nat.

Notes on fidelity:
* Python sets of macro names are modelled as duplicate-free lists in first
  insertion order.  The only set iteration in the source (the macro lookup
  in parse_zmk_layer) is order independent for the reachable macro sets,
  because all collected names are drawn from the identifier class
  [A-Z_][A-Z0-9_]* and at most one such name can match with a trailing
  word boundary at a given position.
* The regular expressions of the source combine literals with the classes
  \s, \w, [A-Z_][A-Z0-9_]* and the greedy tail (.+)\).  Adjacent pieces
  always have disjoint character classes, so the backtracking search of
  Python's engine coincides with the maximal-munch reading implemented
  here; the greedy (.+)\) group captures everything up to the last ')'.
* Loops of the source that walk a line index are modelled either by
  well-founded recursion on the remaining line count or, for the two
  top-level passes, with a fuel argument initialised to (number of lines
  + 1); every iteration of the corresponding Python loop advances the
  index by at least one, so this fuel is never exhausted.
* Line 368 of the source file is dedented to column 0, which makes the
  Python module fail to parse (an IndentationError).  The embedding of
  format_keymap below uses the evidently intended indentation (the branch
  belongs inside the rewrite loop, exactly parallel to the identical
  branch of collect_zmk_layers at lines 312-318).  See the safety claim
  about format_keymap for the record of this defect.
-/

namespace ZmkFormat

/-- Python str.strip / str.rstrip whitespace class (ASCII). -/
def isPySpace (c : Char) : Bool :=
  c = ' ' || c = '\t' || c = '\n' || c = '\r' || c = '\x0b' || c = '\x0c'

/-- Characters of Python's regex class \w (ASCII inputs). -/
def wordChar (c : Char) : Bool :=
  c.isAlpha || c.isDigit || c = '_'

/-- Python str.strip on a character list. -/
def pyStripL (cs : List Char) : List Char :=
  ((cs.dropWhile isPySpace).reverse.dropWhile isPySpace).reverse

/-- Python str.rstrip on a character list. -/
def pyRstripL (cs : List Char) : List Char :=
  (cs.reverse.dropWhile isPySpace).reverse

/-- Python str.strip. -/
def pyStrip (s : String) : String :=
  String.mk (pyStripL s.data)

/-- Python str.rstrip. -/
def pyRstrip (s : String) : String :=
  String.mk (pyRstripL s.data)

/-- Python str.ljust with space fill. -/
def pyLjust (s : String) (w : Nat) : String :=
  String.mk (s.data ++ List.replicate (w - s.data.length) ' ')

/-- Python str.startswith. -/
def strStartsWith (s p : String) : Bool :=
  p.data.isPrefixOf s.data

/-- Python str.endswith. -/
def strEndsWith (s p : String) : Bool :=
  p.data.reverse.isPrefixOf s.data.reverse

/-- Python str.count for a single-character argument. -/
def countChar (s : String) (c : Char) : Nat :=
  s.data.count c

/-- String of n spaces, as produced by " " * n in Python. -/
def spacesStr (n : Nat) : String :=
  String.mk (List.replicate n ' ')

/-- Python sep.join(list). -/
def joinWith (sep : String) : List String → String
  | [] => ""
  | h :: t => t.foldl (fun a s => a ++ sep ++ s) h

/-- Python s.split('\n') on a character list: list of newline-free segments. -/
def splitNl : List Char → List (List Char)
  | [] => [[]]
  | c :: rest =>
    match splitNl rest with
    | [] => [[c]]
    | h :: t => if c = '\n' then [] :: h :: t else (c :: h) :: t

/-- Inverse of splitNl: interleave the segments with newlines. -/
def joinNl : List (List Char) → List Char
  | [] => []
  | [l] => l
  | l :: rest => l ++ '\n' :: joinNl rest

/-- Python content.split('\n'). -/
def linesOf (s : String) : List String :=
  (splitNl s.data).map String.mk

/-- Python '\n'.join(lines). -/
def joinLines (ls : List String) : String :=
  String.mk (joinNl (ls.map String.data))

theorem splitNl_ne_nil (cs : List Char) : splitNl cs ≠ [] := by
  cases cs with
  | nil => simp [splitNl]
  | cons c rest =>
    simp only [splitNl]
    cases splitNl rest with
    | nil => simp
    | cons h t =>
      by_cases hc : c = '\n' <;> simp [hc]

theorem joinNl_splitNl (cs : List Char) : joinNl (splitNl cs) = cs := by
  induction cs with
  | nil => rfl
  | cons c rest ih =>
    simp only [splitNl]
    cases hs : splitNl rest with
    | nil => exact absurd hs (splitNl_ne_nil rest)
    | cons h t =>
      rw [hs] at ih
      by_cases hc : c = '\n'
      · subst hc
        simp only [if_pos rfl, joinNl, List.nil_append]
        rw [ih]
      · simp only [if_neg hc]
        cases t with
        | nil =>
          simp only [joinNl] at ih ⊢
          rw [ih]
        | cons h' t' =>
          simp only [joinNl] at ih ⊢
          rw [List.cons_append, ih]

theorem joinLines_linesOf (s : String) : joinLines (linesOf s) = s := by
  unfold joinLines linesOf
  rw [List.map_map]
  have : (String.data ∘ String.mk) = id := by
    funext l; rfl
  rw [this, List.map_id, joinNl_splitNl]

/-- Model of re.sub(r'\n{3,}', '\n\n', s) on the character level: every
maximal run of three or more newlines is replaced by exactly two.  Fuel
starts at (length + 1); every step consumes at least one character. -/
def collapseAux : Nat → List Char → List Char
  | 0, _ => []
  | _ + 1, [] => []
  | fuel + 1, c :: rest =>
    if c = '\n' then
      (if (rest.takeWhile (fun x => x = '\n')).length + 1 ≥ 3 then ['\n', '\n']
        else c :: rest.takeWhile (fun x => x = '\n')) ++
        collapseAux fuel (rest.dropWhile (fun x => x = '\n'))
    else
      c :: collapseAux fuel rest

/-- Model of the final blank-line cleanup of format_keymap. -/
def collapseBlank (s : String) : String :=
  String.mk (collapseAux (s.data.length + 1) s.data)

/-- Does the character list contain three consecutive newlines? -/
def hasTripleNl : List Char → Bool
  | '\n' :: '\n' :: '\n' :: _ => true
  | _ :: rest => hasTripleNl rest
  | [] => false

theorem hasTripleNl_cons_of_ne (c : Char) (cs : List Char) (hc : c ≠ '\n') :
    hasTripleNl (c :: cs) = hasTripleNl cs := by
  cases cs with
  | nil => simp [hasTripleNl, hc]
  | cons c' cs' =>
    cases cs' with
    | nil => simp [hasTripleNl, hc]
    | cons c'' cs'' => simp [hasTripleNl, hc]

theorem hasTripleNl_cons (c : Char) (cs : List Char) :
    hasTripleNl cs = true → hasTripleNl (c :: cs) = true := by
  intro h
  by_cases hc : c = '\n'
  · subst hc
    cases cs with
    | nil => simp [hasTripleNl] at h
    | cons c' cs' =>
      cases cs' with
      | nil => simp [hasTripleNl] at h
      | cons c'' cs'' =>
        by_cases h1 : c' = '\n'
        · by_cases h2 : c'' = '\n'
          · subst h1; subst h2; simp [hasTripleNl]
          · subst h1
            rw [show hasTripleNl ('\n' :: '\n' :: c'' :: cs'') =
                hasTripleNl ('\n' :: c'' :: cs'') from by
              cases c''; simp_all [hasTripleNl]]
            exact h
        · rw [show hasTripleNl ('\n' :: c' :: c'' :: cs'') =
              hasTripleNl (c' :: c'' :: cs'') from by
            cases c'; simp_all [hasTripleNl]]
          exact h
  · rw [hasTripleNl_cons_of_ne c cs hc]; exact h

theorem takeWhile_nl_ge_two (rest : List Char)
    (h : (rest.takeWhile (fun x => x = '\n')).length ≥ 2) :
    hasTripleNl ('\n' :: rest) = true := by
  cases rest with
  | nil => simp [List.takeWhile] at h
  | cons c1 r1 =>
    by_cases h1 : c1 = '\n'
    · subst h1
      cases r1 with
      | nil => simp [List.takeWhile] at h
      | cons c2 r2 =>
        by_cases h2 : c2 = '\n'
        · subst h2; simp [hasTripleNl]
        · simp [List.takeWhile, h2] at h
    · simp [List.takeWhile, h1] at h

theorem hasTripleNl_append_right (pre suf : List Char)
    (hs : hasTripleNl suf = true) : hasTripleNl (pre ++ suf) = true := by
  induction pre with
  | nil => simpa using hs
  | cons p ps ihp => exact hasTripleNl_cons p _ ihp

theorem hasTripleNl_two_cons (d : Char) (ds : List Char) (hd : d ≠ '\n') :
    hasTripleNl ('\n' :: '\n' :: d :: ds) = hasTripleNl (d :: ds) := by
  cases d; simp_all [hasTripleNl]

theorem hasTripleNl_one_cons (d : Char) (ds : List Char) (hd : d ≠ '\n') :
    hasTripleNl ('\n' :: d :: ds) = hasTripleNl (d :: ds) := by
  cases ds
  all_goals simp_all [hasTripleNl]

theorem collapseAux_cons_nl (fuel : Nat) (rest : List Char) :
    collapseAux (fuel + 1) ('\n' :: rest) =
    (if (rest.takeWhile (fun x => x = '\n')).length + 1 ≥ 3 then ['\n', '\n']
      else '\n' :: rest.takeWhile (fun x => x = '\n')) ++
      collapseAux fuel (rest.dropWhile (fun x => x = '\n')) := by
  simp [collapseAux]

theorem collapseAux_cons_ne (fuel : Nat) (c : Char) (rest : List Char)
    (hc : c ≠ '\n') :
    collapseAux (fuel + 1) (c :: rest) = c :: collapseAux fuel rest := by
  simp [collapseAux, hc]

theorem collapseAux_of_no_triple : ∀ (fuel : Nat) (cs : List Char),
    cs.length < fuel → hasTripleNl cs = false → collapseAux fuel cs = cs := by
  intro fuel
  induction fuel with
  | zero => intro cs hlen _; omega
  | succ fuel ih =>
    intro cs hlen h
    cases cs with
    | nil => rfl
    | cons c rest =>
      by_cases hc : c = '\n'
      · subst hc
        rw [collapseAux_cons_nl]
        have hsplit : rest.takeWhile (fun x => x = '\n') ++
            rest.dropWhile (fun x => x = '\n') = rest :=
          List.takeWhile_append_dropWhile _ _
        have hlt : ¬ (rest.takeWhile (fun x => x = '\n')).length + 1 ≥ 3 := by
          intro hge
          have : (rest.takeWhile (fun x => x = '\n')).length ≥ 2 := by omega
          rw [takeWhile_nl_ge_two rest this] at h
          exact Bool.noConfusion h
        rw [if_neg hlt]
        have hnb : hasTripleNl (rest.dropWhile (fun x => x = '\n')) = false := by
          by_contra hcon
          have hcon' : hasTripleNl (rest.dropWhile (fun x => x = '\n')) = true := by
            cases hx : hasTripleNl (rest.dropWhile (fun x => x = '\n')) with
            | false => exact absurd hx hcon
            | true => rfl
          have : hasTripleNl ('\n' :: rest) = true := by
            rw [← hsplit, ← List.cons_append]
            exact hasTripleNl_append_right
              ('\n' :: rest.takeWhile (fun x => x = '\n')) _ hcon'
          rw [this] at h
          exact Bool.noConfusion h
        have hdlen : (rest.dropWhile (fun x => x = '\n')).length < fuel := by
          have := List.Sublist.length_le
            (List.dropWhile_sublist (fun x => x = '\n') (l := rest))
          simp only [List.length_cons] at hlen
          omega
        rw [ih _ hdlen hnb, List.cons_append, hsplit]
      · rw [collapseAux_cons_ne fuel c rest hc]
        have hrest : hasTripleNl rest = false := by
          rw [hasTripleNl_cons_of_ne c rest hc] at h
          exact h
        have hrlen : rest.length < fuel := by
          simp only [List.length_cons] at hlen
          omega
        rw [ih rest hrlen hrest]

theorem collapseAux_head_ne_nl (fuel : Nat) (cs : List Char)
    (h : ∀ c cs', cs = c :: cs' → c ≠ '\n') :
    ∀ d ds, collapseAux fuel cs = d :: ds → d ≠ '\n' := by
  intro d ds hcol
  cases fuel with
  | zero => exact absurd hcol.symm (by simp [collapseAux])
  | succ fuel =>
    cases cs with
    | nil => exact absurd hcol.symm (by simp [collapseAux])
    | cons c rest =>
      have hc : c ≠ '\n' := h c rest rfl
      rw [collapseAux_cons_ne fuel c rest hc] at hcol
      have : d = c := (List.cons.injEq .. ▸ hcol.symm).1
      rw [this]; exact hc

theorem hasTripleNl_collapseAux : ∀ (fuel : Nat) (cs : List Char),
    cs.length < fuel → hasTripleNl (collapseAux fuel cs) = false := by
  intro fuel
  induction fuel with
  | zero => intro cs hlen; omega
  | succ fuel ih =>
    intro cs hlen
    cases cs with
    | nil => rfl
    | cons c rest =>
      by_cases hc : c = '\n'
      · subst hc
        rw [collapseAux_cons_nl]
        have hdlen : (rest.dropWhile (fun x => x = '\n')).length < fuel := by
          have := List.Sublist.length_le
            (List.dropWhile_sublist (fun x => x = '\n') (l := rest))
          simp only [List.length_cons] at hlen
          omega
        have ihd := ih (rest.dropWhile (fun x => x = '\n')) hdlen
        have hhead : ∀ d ds,
            collapseAux fuel (rest.dropWhile (fun x => x = '\n')) = d :: ds →
              d ≠ '\n' := by
          apply collapseAux_head_ne_nl
          intro c' cs' hx
          have hdw := List.head?_dropWhile_not (fun x => x = '\n') rest
          rw [hx] at hdw
          simpa using hdw
        have hrun_all : ∀ r ∈ rest.takeWhile (fun x => x = '\n'), r = '\n' := by
          intro r hm
          have := List.mem_takeWhile_imp hm
          simpa using this
        by_cases hge : (rest.takeWhile (fun x => x = '\n')).length + 1 ≥ 3
        · rw [if_pos hge]
          cases hcol : collapseAux fuel (rest.dropWhile (fun x => x = '\n')) with
          | nil => simp [hasTripleNl]
          | cons d ds =>
            have hd : d ≠ '\n' := hhead d ds hcol
            rw [hcol] at ihd
            show hasTripleNl ('\n' :: '\n' :: d :: ds) = false
            rw [hasTripleNl_two_cons d ds hd]
            exact ihd
        · rw [if_neg hge]
          have hrle : (rest.takeWhile (fun x => x = '\n')).length ≤ 1 := by omega
          cases hrunc : rest.takeWhile (fun x => x = '\n') with
          | nil =>
            simp only [List.cons_append, List.nil_append]
            cases hcol : collapseAux fuel (rest.dropWhile (fun x => x = '\n')) with
            | nil => simp [hasTripleNl]
            | cons d ds =>
              have hd : d ≠ '\n' := hhead d ds hcol
              rw [hcol] at ihd
              rw [hasTripleNl_one_cons d ds hd]
              exact ihd
          | cons r rs =>
            have hrs : rs = [] := by
              rw [hrunc] at hrle; simpa using hrle
            subst hrs
            have hr : r = '\n' := hrun_all r (by rw [hrunc]; simp)
            subst hr
            simp only [List.cons_append, List.nil_append]
            cases hcol : collapseAux fuel (rest.dropWhile (fun x => x = '\n')) with
            | nil => simp [hasTripleNl]
            | cons d ds =>
              have hd : d ≠ '\n' := hhead d ds hcol
              rw [hcol] at ihd
              rw [hasTripleNl_two_cons d ds hd]
              exact ihd
      · rw [collapseAux_cons_ne fuel c rest hc]
        rw [hasTripleNl_cons_of_ne c _ hc]
        have hrlen : rest.length < fuel := by
          simp only [List.length_cons] at hlen
          omega
        exact ih rest hrlen

/-- Idempotence of blank-line collapsing. -/
theorem collapseBlank_collapseBlank (s : String) :
    collapseBlank (collapseBlank s) = collapseBlank s := by
  unfold collapseBlank
  have hd : (String.mk (collapseAux (s.data.length + 1) s.data)).data =
      collapseAux (s.data.length + 1) s.data := rfl
  rw [hd]
  rw [collapseAux_of_no_triple _ _ (Nat.lt_succ_self _)
    (hasTripleNl_collapseAux (s.data.length + 1) s.data (Nat.lt_succ_self _))]

/-- Consume an exact literal prefix, returning the remaining characters. -/
def expectLit : List Char → List Char → Option (List Char)
  | [], cs => some cs
  | _ :: _, [] => none
  | l :: ls, c :: cs => if c = l then expectLit ls cs else none

/-- Consume a single expected character. -/
def expectChar (x : Char) : List Char → Option (List Char)
  | [] => none
  | c :: cs => if c = x then some cs else none

/-- Index of the last occurrence of a character, if any. -/
def lastIndexOf (cs : List Char) (x : Char) : Option Nat :=
  (cs.reverse.findIdx? (fun c => c = x)).map (fun j => cs.length - 1 - j)

/-- Insertion into the list model of a Python set. -/
def addUnique (acc : List String) (n : String) : List String :=
  if acc.contains n then acc else acc ++ [n]

/-- Match the regex r'#define\s+([A-Z_][A-Z0-9_]*)\s+&' at the head of cs,
returning the captured name and the characters after the match.  The
character classes of adjacent regex pieces are disjoint, so the greedy
maximal-munch reading used here is exact. -/
def matchDefineName (cs : List Char) : Option (String × List Char) :=
  match expectLit "#define".data cs with
  | none => none
  | some cs1 =>
    let ws := cs1.takeWhile isPySpace
    if ws.isEmpty then none
    else
      match cs1.dropWhile isPySpace with
      | [] => none
      | c :: r =>
        if c.isUpper || c = '_' then
          let restName := r.takeWhile (fun x => x.isUpper || x.isDigit || x = '_')
          let cs2 := r.dropWhile (fun x => x.isUpper || x.isDigit || x = '_')
          let ws2 := cs2.takeWhile isPySpace
          if ws2.isEmpty then none
          else
            match expectChar '&' (cs2.dropWhile isPySpace) with
            | none => none
            | some cs3 => some (String.mk (c :: restName), cs3)
        else none

/-- Model of re.finditer over the #define pattern: scan left to right, on a
match continue after it, otherwise advance one character.  Fuel is the
character count plus one; every step consumes at least one character. -/
def findDefinesAux : Nat → List Char → List String → List String
  | 0, _, acc => acc
  | _ + 1, [], acc => acc
  | fuel + 1, cs@(_ :: rest), acc =>
    match matchDefineName cs with
    | some (nm, after) => findDefinesAux fuel after (addUnique acc nm)
    | none => findDefinesAux fuel rest acc

/-- Match r'#define\s+MID\s+TAIL' at the head of cs (MID and TAIL literal). -/
def matchDefPatAt (mid tail cs : List Char) : Bool :=
  match expectLit "#define".data cs with
  | none => false
  | some cs1 =>
    if (cs1.takeWhile isPySpace).isEmpty then false
    else
      match expectLit mid (cs1.dropWhile isPySpace) with
      | none => false
      | some cs2 =>
        if (cs2.takeWhile isPySpace).isEmpty then false
        else (expectLit tail (cs2.dropWhile isPySpace)).isSome

/-- Model of re.search for the two fixed shorthand patterns. -/
def searchDefPat (mid tail : List Char) : List Char → Bool
  | [] => false
  | cs@(_ :: rest) => matchDefPatAt mid tail cs || searchDefPat mid tail rest

/-- Embedding of extract_key_macros (zmk_format.py lines 19-37). -/
def extract_key_macros (content : String) : List String :=
  let base := findDefinesAux (content.data.length + 1) content.data []
  let b1 := if searchDefPat "XXX".data "&none".data content.data then
    addUnique base "XXX" else base
  if searchDefPat "___".data "&trans".data content.data then
    addUnique b1 "___" else b1

/-- Macro-dictionary lookup of parse_zmk_layer (lines 79-91): the first
macro that is a literal prefix of the remaining text and is followed by
space, tab, newline or end of text. -/
def findMacroMatch (macros : List String) (rest : List Char) : Option String :=
  macros.find? (fun m =>
    m.data.isPrefixOf rest &&
      (match rest.drop m.data.length with
       | [] => true
       | c :: _ => c = ' ' || c = '\t' || c = '\n'))

/-- Completed-binding flush: Python appends current.strip() when nonempty. -/
def flushBinding (current : List Char) : List String :=
  if (pyStripL current).isEmpty then [] else [String.mk (pyStripL current)]

/-- Character loop of parse_zmk_layer (lines 55-100).  The fuel starts at
(length + 1); every Python iteration consumes at least one character
except for an empty macro name, which cannot occur in macro sets built by
extract_key_macros (Python would loop forever there). -/
def parseBindingsAux (macros : List String) :
    Nat → List Char → List Char → Int → List String → List String
  | 0, _, current, _, acc => acc ++ flushBinding current
  | _ + 1, [], current, _, acc => acc ++ flushBinding current
  | fuel + 1, c :: rest, current, depth, acc =>
    if c = '(' then
      parseBindingsAux macros fuel rest (current ++ [c]) (depth + 1) acc
    else if c = ')' then
      parseBindingsAux macros fuel rest (current ++ [c]) (depth - 1) acc
    else if c = '&' && depth = 0 then
      parseBindingsAux macros fuel rest ['&'] depth (acc ++ flushBinding current)
    else if depth = 0 then
      match findMacroMatch macros (c :: rest) with
      | some m =>
        parseBindingsAux macros fuel ((c :: rest).drop m.data.length) m.data
          depth (acc ++ flushBinding current)
      | none => parseBindingsAux macros fuel rest (current ++ [c]) depth acc
    else
      parseBindingsAux macros fuel rest (current ++ [c]) depth acc

/-- Embedding of parse_zmk_layer (lines 40-102): match the anchored regex
r'ZMK_LAYER\s*\(\s*(\w+)\s*,(.+)\)' with DOTALL (the greedy group runs to
the last ')'), then tokenize the stripped binding text. -/
def parse_zmk_layer (content : String) (key_macros : List String) :
    Option (String × String × List String) :=
  match expectLit "ZMK_LAYER".data content.data with
  | none => none
  | some cs1 =>
    match expectChar '(' (cs1.dropWhile isPySpace) with
    | none => none
    | some cs2 =>
      let cs3 := cs2.dropWhile isPySpace
      let nm := cs3.takeWhile wordChar
      if nm.isEmpty then none
      else
        match expectChar ',' ((cs3.dropWhile wordChar).dropWhile isPySpace) with
        | none => none
        | some cs4 =>
          match lastIndexOf cs4 ')' with
          | none => none
          | some k =>
            if k = 0 then none
            else
              let bindings_str := pyStripL (cs4.take k)
              some (String.mk nm, String.mk bindings_str,
                parseBindingsAux key_macros (bindings_str.length + 1)
                  bindings_str [] 0 [])

/-- Row partition of format_zmk_layer line 116: bindings[i:i+cols] for i in
range(0, len, cols).  Python raises for cols = 0; that case is modelled as
an empty row list and is outside every claim (claims assume cols >= 1). -/
def chunkAux (cols : Nat) : Nat → List α → List (List α)
  | 0, _ => []
  | _ + 1, [] => []
  | fuel + 1, x :: xs =>
    if cols = 0 then []
    else (x :: xs).take cols :: chunkAux cols fuel ((x :: xs).drop cols)

/-- Row partition with the fuel fixed to (length + 1): every step of the
Python range loop consumes cols >= 1 elements. -/
def chunkList (cols : Nat) (l : List α) : List (List α) :=
  chunkAux cols (l.length + 1) l

/-- Per-row padding of format_zmk_layer lines 132-137 and 141-146: every
key except the last in its row is ljust-padded to the column width. -/
def padRow (w : Nat) : List String → List String
  | [] => []
  | [k] => [k]
  | k :: rest => pyLjust k w :: padRow w rest

/-- Text of one formatted row (lines 126-147): thumb rows (shorter than
cols) get the offset indent 4 + 3*(w+1), full rows the 4-space indent. -/
def layerRowText (cols w : Nat) (row : List String) : String :=
  if row.length < cols then
    spacesStr (4 + 3 * (w + 1)) ++ joinWith " " (padRow w row)
  else
    "    " ++ joinWith " " (padRow w row)

/-- Embedding of format_zmk_layer (lines 105-149). -/
def format_zmk_layer (name : String) (bindings : List String) (cols : Nat)
    (global_width : Option Nat) : String :=
  let w := match global_width with
    | some w => w
    | none => match bindings with
      | [] => 0
      | b :: bs => bs.foldl (fun a s => Nat.max a s.length) b.data.length
  let rows := chunkList cols bindings
  "ZMK_LAYER(" ++ name ++ ",\n" ++
    joinWith "\n" (rows.map (layerRowText cols w)) ++ "\n)"

/-- Scan of format_zmk_macro_block lines 161-171: index of the first
depth-zero comma, where both bracket kinds share one counter. -/
def findFirstCommaIdx : List Char → Nat → Int → Option Nat
  | [], _, _ => none
  | c :: rest, i, depth =>
    if c = '<' || c = '(' then findFirstCommaIdx rest (i + 1) (depth + 1)
    else if c = '>' || c = ')' then findFirstCommaIdx rest (i + 1) (depth - 1)
    else if c = ',' && depth = 0 then some i
    else findFirstCommaIdx rest (i + 1) depth

/-- State of the property-splitting machine of format_zmk_macro_block
(lines 176-222): collected properties, current accumulator, the two
depth counters and the line-comment flag. -/
structure BlockSplitState where
  props : List String
  current : List Char
  angle : Int
  paren : Int
  inComment : Bool
deriving Repr, DecidableEq

/-- Semicolon flush (lines 215-219): strip the accumulator and append a
terminating semicolon when the stripped text is nonempty. -/
def flushSemi (current : List Char) : List String :=
  if (pyStripL current).isEmpty then []
  else [String.mk (pyStripL current ++ [';'])]

/-- One iteration of the property-splitting loop (lines 185-222).  The
ahead argument is content[i+1] when it exists, used only by the
comment-start test. -/
def macroBlockStep (st : BlockSplitState) (c : Char) (ahead : Option Char) :
    BlockSplitState :=
  if !st.inComment && c = '/' && ahead = some '/' then
    { st with inComment := true, current := st.current ++ [c] }
  else if st.inComment && c = '\n' then
    { st with inComment := false, current := st.current ++ [c] }
  else if st.inComment then
    { st with current := st.current ++ [c] }
  else if c = '<' then
    { st with angle := st.angle + 1, current := st.current ++ [c] }
  else if c = '>' then
    { st with angle := st.angle - 1, current := st.current ++ [c] }
  else if c = '(' then
    { st with paren := st.paren + 1, current := st.current ++ [c] }
  else if c = ')' then
    { st with paren := st.paren - 1, current := st.current ++ [c] }
  else if c = ';' && st.angle = 0 && st.paren = 0 then
    { st with props := st.props ++ flushSemi st.current, current := [] }
  else
    { st with current := st.current ++ [c] }

/-- Driver of the splitting loop: one step per character, exactly as the
Python loop advances i by one on every path. -/
def splitPropsAux (st : BlockSplitState) : List Char → BlockSplitState
  | [] => st
  | c :: rest => splitPropsAux (macroBlockStep st c rest.head?) rest

/-- Final flush of lines 224-230: the last property may lack a semicolon;
never add one to a bare comment. -/
def finishProps (st : BlockSplitState) : List String :=
  if (pyStripL st.current).isEmpty then st.props
  else
    let prop := String.mk (pyStripL st.current)
    if !strStartsWith prop "//" && !strEndsWith prop ";" then
      st.props ++ [prop ++ ";"]
    else
      st.props ++ [prop]

/-- Property list extracted from a block macro body (lines 178-230). -/
def splitProperties (content : String) : List String :=
  finishProps (splitPropsAux ⟨[], [], 0, 0, false⟩ content.data)

/-- Re-indentation of one property (lines 237-243): every line of the
property is stripped, lines after the first are joined with a deeper
continuation indent. -/
def normalizeProp (p : String) : String :=
  joinWith "\n    " ((linesOf p).map pyStrip)

/-- Embedding of format_zmk_macro_block (lines 152-251). -/
def format_zmk_macro_block (macro_type name content : String) : String :=
  let content := pyStrip content
  let bt : Option String × String :=
    if macro_type = "ZMK_BEHAVIOR" then
      match findFirstCommaIdx content.data 0 0 with
      | some idx =>
        if idx > 0 then
          (some (String.mk (pyStripL (content.data.take idx))),
            String.mk (pyStripL (content.data.drop (idx + 1))))
        else (none, content)
      | none => (none, content)
    else (none, content)
  let behavior_type := bt.1
  let content := bt.2
  let properties := splitProperties content
  if properties.isEmpty && behavior_type.isNone then
    macro_type ++ "(" ++ name ++ ", " ++ content ++ ")"
  else
    let formatted_props :=
      joinWith "\n" (properties.map (fun p => "    " ++ normalizeProp p))
    match behavior_type with
    | some t =>
      macro_type ++ "(" ++ name ++ ", " ++ t ++ ",\n" ++ formatted_props ++ "\n)"
    | none =>
      macro_type ++ "(" ++ name ++ ",\n" ++ formatted_props ++ "\n)"

/-- Embedding of format_devicetree_node (lines 254-278): first line
rstripped, interior lines rstripped, closing line rstripped when the node
is multi-line. -/
def format_devicetree_node (content : String) : String :=
  match linesOf content with
  | [] => content
  | first :: rest =>
    let mids := if (first :: rest).length > 2 then rest.dropLast.map pyRstrip else []
    let lst := if (first :: rest).length > 1 then [pyRstrip (rest.getLastD "")] else []
    joinWith "\n" ([pyRstrip first] ++ mids ++ lst)

/-- Per-line delimiter balance contribution: count(open) - count(close). -/
def lineDelta (oc cc : Char) (l : String) : Int :=
  (countChar l oc : Int) - (countChar l cc : Int)

/-- Multi-line region consumption loop (used at lines 326-329, 397-401,
420-423 and 440-443 of the source): while the balance is positive and a
next line exists, append it and update the balance.  Returns the collected
text and the final line index. -/
def consumeRegion (oc cc : Char) (lines : List String) :
    Nat → Nat → String → Int → String × Nat
  | 0, i, content, _ => (content, i)
  | fuel + 1, i, content, depth =>
    if depth > 0 && i + 1 < lines.length then
      consumeRegion oc cc lines fuel (i + 1)
        (content ++ "\n" ++ lines.getD (i + 1) "")
        (depth + lineDelta oc cc (lines.getD (i + 1) ""))
    else (content, i)

/-- Does the running balance stay strictly positive on every step of the
consumption loop, so that the region never closes before end of file? -/
def neverBalancedB (oc cc : Char) (lines : List String) :
    Nat → Nat → Int → Bool
  | 0, _, _ => true
  | fuel + 1, i, depth =>
    if i + 1 < lines.length then
      depth > 0 && neverBalancedB oc cc lines fuel (i + 1)
        (depth + lineDelta oc cc (lines.getD (i + 1) ""))
    else true

/-- Loop at line 392-393 of the source: while i < end_line: i += 1. -/
def advanceTo : Nat → Nat → Nat → Nat
  | 0, i, _ => i
  | fuel + 1, i, e => if i < e then advanceTo fuel (i + 1) e else i

/-- Inner loop of the backslash-continuation branch (lines 313-315 and
370-372): collect lines while they end in a backslash. -/
def skipDefineContAux (lines : List String) :
    Nat → Nat → List String → List String × Nat
  | 0, i, acc => (acc, i)
  | fuel + 1, i, acc =>
    if i < lines.length ∧ strEndsWith (pyRstrip (lines.getD i "")) "\\" = true then
      skipDefineContAux lines fuel (i + 1) (acc ++ [lines.getD i ""])
    else (acc, i)

/-- Full backslash-continuation branch (lines 313-318 and 370-377): the
continued lines, then one more final line when it exists. -/
def skipDefineChunk (lines : List String) (i : Nat) : List String × Nat :=
  let r := skipDefineContAux lines (lines.length + 1) i []
  if r.2 < lines.length then (r.1 ++ [lines.getD r.2 ""], r.2 + 1) else r

/-- Backward walk of is_in_backslash_continuation lines 288-291: while
k > 0 and lines[k-1] ends in a backslash, k -= 1. -/
def chainStart (lines : List String) : Nat → Nat
  | 0 => 0
  | k + 1 =>
    if strEndsWith (pyRstrip (lines.getD k "")) "\\" then chainStart lines k
    else k + 1

/-- Backward scan of is_in_backslash_continuation lines 284-296, with the
argument jj + 1 standing for the current loop value j = jj. -/
def isInContAux (lines : List String) : Nat → Bool
  | 0 => false
  | jj + 1 =>
    if strEndsWith (pyRstrip (lines.getD jj "")) "\\" then
      if strStartsWith (pyStrip (lines.getD (chainStart lines jj) "")) "#define" then
        true
      else isInContAux lines jj
    else false

/-- Embedding of is_in_backslash_continuation (lines 281-296). -/
def is_in_backslash_continuation (lines : List String) (index : Nat) : Bool :=
  isInContAux lines index

/-- One collected layer region: (start_line, end_line, name, bindings). -/
structure LayerEntry where
  startLine : Nat
  endLine : Nat
  name : String
  bindings : List String
deriving Repr, DecidableEq

/-- Main loop of collect_zmk_layers (lines 308-339), with fuel (number of
lines + 1); every iteration advances i by at least one. -/
def collectAux (key_macros : List String) (lines : List String) :
    Nat → Nat → List LayerEntry → List LayerEntry
  | 0, _, acc => acc
  | fuel + 1, i, acc =>
    if i < lines.length then
      let line := lines.getD i ""
      let stripped := pyStrip line
      if strStartsWith stripped "#define" && strEndsWith (pyRstrip line) "\\" then
        collectAux key_macros lines fuel (skipDefineChunk lines i).2 acc
      else if strStartsWith stripped "ZMK_LAYER(" then
        let r := consumeRegion '(' ')' lines lines.length i line (lineDelta '(' ')' line)
        match parse_zmk_layer r.1 key_macros with
        | some (nm, _, bs) =>
          collectAux key_macros lines fuel (r.2 + 1) (acc ++ [⟨i, r.2, nm, bs⟩])
        | none => collectAux key_macros lines fuel (r.2 + 1) acc
      else collectAux key_macros lines fuel (i + 1) acc
    else acc

/-- Embedding of collect_zmk_layers (lines 299-341). -/
def collect_zmk_layers (content : String) (key_macros : List String) :
    List LayerEntry :=
  collectAux key_macros (linesOf content) ((linesOf content).length + 1) 0 []

/-- Width computation of format_keymap lines 353-356: Python max over the
concatenated binding lists, 0 when empty. -/
def computeGlobalWidth (layers : List LayerEntry) : Nat :=
  match layers.flatMap (fun e => e.bindings) with
  | [] => 0
  | b :: bs => bs.foldl (fun a s => Nat.max a s.length) b.data.length

/-- Global width of a file: the collection pass followed by the width
computation, exactly as format_keymap derives it. -/
def fileGlobalWidth (content : String) : Nat :=
  computeGlobalWidth (collect_zmk_layers content (extract_key_macros content))

/-- Head match for one block-macro alternative: KIND\s*\(\s*(\w+)\s*, at
the start of the stripped line. -/
def attemptBlockHead (kind : String) (cs : List Char) : Option String :=
  match expectLit kind.data cs with
  | none => none
  | some cs1 =>
    match expectChar '(' (cs1.dropWhile isPySpace) with
    | none => none
    | some cs2 =>
      let cs3 := cs2.dropWhile isPySpace
      let nm := cs3.takeWhile wordChar
      if nm.isEmpty then none
      else
        match expectChar ',' ((cs3.dropWhile wordChar).dropWhile isPySpace) with
        | none => none
        | some _ => some (String.mk nm)

/-- Anchored match of the alternation regex at line 412, alternatives in
source order. -/
def matchBlockHead (stripped : String) : Option (String × String) :=
  (["ZMK_BEHAVIOR", "ZMK_HOLD_TAP", "ZMK_TAP_DANCE", "ZMK_MACRO"] :
      List String).findSome?
    (fun k => (attemptBlockHead k stripped.data).map (fun nm => (k, nm)))

/-- Single-position attempt for the content-extraction regex of line 426:
KIND\s*\(\s*NAME\s*,(.+)\) with the greedy group running to the last ')'
of the remaining text. -/
def attemptFullBlock (kind name : String) (cs : List Char) : Option String :=
  match expectLit kind.data cs with
  | none => none
  | some cs1 =>
    match expectChar '(' (cs1.dropWhile isPySpace) with
    | none => none
    | some cs2 =>
      match expectLit name.data (cs2.dropWhile isPySpace) with
      | none => none
      | some cs3 =>
        match expectChar ',' (cs3.dropWhile isPySpace) with
        | none => none
        | some cs4 =>
          match lastIndexOf cs4 ')' with
          | none => none
          | some k => if k = 0 then none else some (String.mk (cs4.take k))

/-- Model of re.search for the content-extraction regex: first matching
position from the left. -/
def searchBlockContent (kind name : String) : List Char → Option String
  | [] => none
  | cs@(_ :: rest) =>
    match attemptFullBlock kind name cs with
    | some g => some g
    | none => searchBlockContent kind name rest

/-- Anchored match of the node regex r'&\w+\s*\x7b' at line 436. -/
def isDtNodeStart (stripped : String) : Bool :=
  match stripped.data with
  | '&' :: r =>
    let w := r.takeWhile wordChar
    !w.isEmpty &&
      (match (r.dropWhile wordChar).dropWhile isPySpace with
       | '\x7b' :: _ => true
       | _ => false)
  | _ => false

/-- Main loop of format_keymap's rewrite pass (lines 364-451), with the
branch at source line 368 read at its intended indentation (see the
header note).  Fuel is (number of lines + 1); every iteration advances
the line index by at least one. -/
def rewriteAux (key_macros : List String) (cols : Nat) (lines : List String)
    (layers : List LayerEntry) (global_width : Nat) :
    Nat → Nat → Nat → List String → List String
  | 0, _, _, acc => acc
  | fuel + 1, i, layer_idx, acc =>
    if i < lines.length then
      let line := lines.getD i ""
      let stripped := pyStrip line
      if strStartsWith stripped "#define" && strEndsWith (pyRstrip line) "\\" then
        let r := skipDefineChunk lines i
        rewriteAux key_macros cols lines layers global_width fuel r.2 layer_idx
          (acc ++ r.1)
      else if is_in_backslash_continuation lines i then
        rewriteAux key_macros cols lines layers global_width fuel (i + 1)
          layer_idx (acc ++ [line])
      else if strStartsWith stripped "ZMK_LAYER(" then
        if h : layer_idx < layers.length then
          let e := layers.get ⟨layer_idx, h⟩
          rewriteAux key_macros cols lines layers global_width fuel
            (advanceTo (e.endLine + 1) i e.endLine + 1) (layer_idx + 1)
            (acc ++ [format_zmk_layer e.name e.bindings cols (some global_width)])
        else
          let r := consumeRegion '(' ')' lines lines.length i line (lineDelta '(' ')' line)
          match parse_zmk_layer r.1 key_macros with
          | some (nm, _, bs) =>
            rewriteAux key_macros cols lines layers global_width fuel (r.2 + 1)
              layer_idx
              (acc ++ [format_zmk_layer nm bs cols (some global_width)])
          | none =>
            rewriteAux key_macros cols lines layers global_width fuel (r.2 + 1)
              layer_idx (acc ++ [r.1])
      else
        match matchBlockHead stripped with
        | some (macro_type, macro_name) =>
          let r := consumeRegion '(' ')' lines lines.length i line (lineDelta '(' ')' line)
          match searchBlockContent macro_type macro_name r.1.data with
          | some inner =>
            rewriteAux key_macros cols lines layers global_width fuel (r.2 + 1)
              layer_idx
              (acc ++ [format_zmk_macro_block macro_type macro_name (pyStrip inner)])
          | none =>
            rewriteAux key_macros cols lines layers global_width fuel (r.2 + 1)
              layer_idx (acc ++ [r.1])
        | none =>
          if isDtNodeStart stripped then
            let r := consumeRegion '\x7b' '\x7d' lines lines.length i line
              (lineDelta '\x7b' '\x7d' line)
            rewriteAux key_macros cols lines layers global_width fuel (r.2 + 1)
              layer_idx (acc ++ [format_devicetree_node r.1])
          else
            rewriteAux key_macros cols lines layers global_width fuel (i + 1)
              layer_idx (acc ++ [line])
    else acc

/-- Embedding of format_keymap (lines 344-457). -/
def format_keymap (content : String) (cols : Nat) : String :=
  let key_macros := extract_key_macros content
  let layers := collect_zmk_layers content key_macros
  let global_width := computeGlobalWidth layers
  let lines := linesOf content
  collapseBlank
    (joinLines (rewriteAux key_macros cols lines layers global_width
      (lines.length + 1) 0 0 []))

theorem string_mk_data (s : String) : String.mk s.data = s := rfl

theorem string_append_data (a b : String) : a ++ b = String.mk (a.data ++ b.data) := rfl

theorem foldl_sep_init (sep x : String) (t : List String) :
    ∀ y : String, t.foldl (fun a s => a ++ sep ++ s) (x ++ y) =
      x ++ t.foldl (fun a s => a ++ sep ++ s) y := by
  induction t with
  | nil => intro y; rfl
  | cons b bs ih =>
    intro y
    simp only [List.foldl_cons]
    have h1 : x ++ y ++ sep ++ b = x ++ (y ++ sep ++ b) := by
      simp [String.append_assoc]
    rw [h1]
    exact ih (y ++ sep ++ b)

theorem joinWith_cons_cons (sep a b : String) (t : List String) :
    joinWith sep (a :: b :: t) = a ++ sep ++ joinWith sep (b :: t) := by
  simp only [joinWith, List.foldl_cons]
  have := foldl_sep_init sep (a ++ sep) t b
  simpa [String.append_assoc] using this

theorem joinWith_nl_eq_joinLines (ls : List String) :
    joinWith "\n" ls = joinLines ls := by
  induction ls with
  | nil => rfl
  | cons a t ih =>
    cases t with
    | nil =>
      show a = joinLines [a]
      unfold joinLines
      simp [joinNl]
    | cons b t' =>
      rw [joinWith_cons_cons, ih]
      show a ++ "\n" ++ joinLines (b :: t') = joinLines (a :: b :: t')
      unfold joinLines
      simp only [List.map_cons]
      rw [string_append_data, string_append_data]
      congr 1
      show (a.data ++ ['\n']) ++ joinNl (b.data :: t'.map String.data) =
        joinNl (a.data :: b.data :: t'.map String.data)
      rw [List.append_assoc]
      rfl

/-- Shared helper: format_devicetree_node equals per-line trailing
whitespace removal. -/
theorem format_devicetree_node_eq_rstrip (content : String) :
    format_devicetree_node content =
      joinLines ((linesOf content).map pyRstrip) := by
  unfold format_devicetree_node
  cases hl : linesOf content with
  | nil =>
    have h0 : splitNl content.data = [] := by
      simp only [linesOf] at hl
      exact List.map_eq_nil_iff.mp hl
    exact absurd h0 (splitNl_ne_nil content.data)
  | cons first rest =>
    rw [← joinWith_nl_eq_joinLines]
    cases rest with
    | nil => simp
    | cons x t =>
      cases t with
      | nil => simp [List.getLastD]
      | cons y t' =>
        have hlen : (first :: x :: y :: t').length > 2 := by
          simp only [List.length_cons]; omega
        simp only [if_pos hlen, if_pos (by simp only [List.length_cons]; omega :
          (first :: x :: y :: t').length > 1)]
        congr 1
        have hne : (x :: y :: t') ≠ [] := by simp
        have hgl : (x :: y :: t').getLastD "" = (x :: y :: t').getLast hne := by
          simp [List.getLastD_eq_getLast?, List.getLast?_eq_getLast _ hne]
        rw [hgl]
        have hmap : (x :: y :: t').dropLast.map pyRstrip ++
            [pyRstrip ((x :: y :: t').getLast hne)] =
            (x :: y :: t').map pyRstrip := by
          rw [show [pyRstrip ((x :: y :: t').getLast hne)] =
              ([(x :: y :: t').getLast hne]).map pyRstrip from rfl]
          rw [← List.map_append, List.dropLast_append_getLast hne]
        simp only [List.cons_append, List.nil_append, List.map_cons]
        rw [hmap]
        simp

/-- Claim C9: for every devicetree node region, the formatter's output is
the input with only trailing whitespace removed from each line; every
line (first, interior and last) keeps its content and leading
indentation, since pyRstrip only removes trailing whitespace. -/
theorem claim_C9_devicetree_rstrip (content : String) :
    format_devicetree_node content =
      joinLines ((linesOf content).map pyRstrip) :=
  format_devicetree_node_eq_rstrip content

/-- Does a string start with a character other than a plain space?  All
bindings produced by the layer tokenizer satisfy this (they are stripped
and nonempty). -/
def headNonSpace (b : String) : Bool :=
  match b.data with
  | [] => false
  | c :: _ => !(c = ' ')

/-- Count of leading plain spaces of a string. -/
def leadingSpaces (s : String) : Nat :=
  (s.data.takeWhile (fun c => c = ' ')).length

theorem takeWhile_space_replicate (n : Nat) (l : List Char)
    (h : l.head? ≠ some ' ') :
    (List.replicate n ' ' ++ l).takeWhile (fun c => c = ' ') =
      List.replicate n ' ' := by
  induction n with
  | zero =>
    cases l with
    | nil => rfl
    | cons c cs =>
      have hc : c ≠ ' ' := by
        intro hcc
        exact h (by rw [hcc]; rfl)
      simp [List.takeWhile, hc]
  | succ n ih =>
    simp only [List.replicate_succ, List.cons_append]
    rw [List.takeWhile_cons]
    simp only [decide_True, if_true]
    rw [ih]

theorem joinWith_head_data (sep p : String) (ps : List String) :
    ∃ t : List Char, (joinWith sep (p :: ps)).data = p.data ++ t := by
  cases ps with
  | nil => exact ⟨[], by simp [joinWith]⟩
  | cons q qs =>
    refine ⟨sep.data ++ (joinWith sep (q :: qs)).data, ?_⟩
    rw [joinWith_cons_cons]
    rw [String.data_append, String.data_append, List.append_assoc]

theorem chunkAux_cons_eq {α : Type} (cols fuel : Nat) (x : α) (xs : List α)
    (hc : cols ≠ 0) :
    chunkAux cols (fuel + 1) (x :: xs) = (x :: xs).take cols ::
      chunkAux cols fuel ((x :: xs).drop cols) := by
  simp [chunkAux, hc]

theorem chunkAux_mem_nonempty {α : Type} (cols : Nat) :
    ∀ (fuel : Nat) (l : List α), ∀ row ∈ chunkAux cols fuel l, row ≠ [] := by
  intro fuel
  induction fuel with
  | zero => intro l row hm; simp [chunkAux] at hm
  | succ fuel ih =>
    intro l row hm
    cases l with
    | nil => simp [chunkAux] at hm
    | cons x xs =>
      by_cases hc : cols = 0
      · simp [chunkAux, hc] at hm
      · rw [chunkAux_cons_eq cols fuel x xs hc] at hm
        cases hm with
        | head =>
          cases cols with
          | zero => exact absurd rfl hc
          | succ c => simp [List.take_succ_cons]
        | tail _ hm' => exact ih _ row hm'

theorem chunkAux_mem_subset {α : Type} (cols : Nat) :
    ∀ (fuel : Nat) (l : List α), ∀ row ∈ chunkAux cols fuel l,
      ∀ b ∈ row, b ∈ l := by
  intro fuel
  induction fuel with
  | zero => intro l row hm; simp [chunkAux] at hm
  | succ fuel ih =>
    intro l row hm
    cases l with
    | nil => simp [chunkAux] at hm
    | cons x xs =>
      by_cases hc : cols = 0
      · simp [chunkAux, hc] at hm
      · rw [chunkAux_cons_eq cols fuel x xs hc] at hm
        cases hm with
        | head => exact fun b hb => List.mem_of_mem_take hb
        | tail _ hm' =>
          intro b hb
          exact List.mem_of_mem_drop (ih _ row hm' b hb)

theorem chunkList_mem_nonempty {α : Type} (cols : Nat) (l : List α) :
    ∀ row ∈ chunkList cols l, row ≠ [] :=
  chunkAux_mem_nonempty cols (l.length + 1) l

theorem chunkList_mem_subset {α : Type} (cols : Nat) (l : List α) :
    ∀ row ∈ chunkList cols l, ∀ b ∈ row, b ∈ l :=
  chunkAux_mem_subset cols (l.length + 1) l

theorem joinWith_padRow_head (w : Nat) (k : String) (rest : List String)
    (c : Char) (cs : List Char) (hk : k.data = c :: cs) :
    ∃ t : List Char, (joinWith " " (padRow w (k :: rest))).data = c :: t := by
  cases rest with
  | nil =>
    refine ⟨cs, ?_⟩
    show (joinWith " " [k]).data = c :: cs
    simp [joinWith, hk]
  | cons r rs =>
    have hpr : padRow w (k :: r :: rs) = pyLjust k w :: padRow w (r :: rs) := rfl
    rw [hpr]
    obtain ⟨t, ht⟩ := joinWith_head_data " " (pyLjust k w) (padRow w (r :: rs))
    refine ⟨cs ++ List.replicate (w - k.data.length) ' ' ++ t, ?_⟩
    rw [ht]
    show (pyLjust k w).data ++ t = c :: (cs ++ List.replicate (w - k.data.length) ' ' ++ t)
    simp [pyLjust, hk]

theorem leadingSpaces_indent_row (w n : Nat) (row : List String)
    (hrow : row ≠ []) (hb : ∀ b ∈ row, headNonSpace b = true) :
    leadingSpaces (spacesStr n ++ joinWith " " (padRow w row)) = n := by
  cases row with
  | nil => exact absurd rfl hrow
  | cons k rest =>
    have hk := hb k (by simp)
    unfold headNonSpace at hk
    cases hkd : k.data with
    | nil => rw [hkd] at hk; simp at hk
    | cons c cs =>
      rw [hkd] at hk
      simp only [Bool.not_eq_true', decide_eq_false_iff_not] at hk
      obtain ⟨t, ht⟩ := joinWith_padRow_head w k rest c cs hkd
      unfold leadingSpaces
      rw [String.data_append]
      have h1 : (spacesStr n).data = List.replicate n ' ' := rfl
      rw [h1, ht, takeWhile_space_replicate n (c :: t) (by simpa using hk)]
      simp

/-- Claim C5: in a formatted layer, a short row (fewer bindings than cols)
is preceded by exactly 4 + 3*(w+1) spaces before its first binding, and a
full row by exactly the 4-space base indent.  layerRowText is the row
emitter of format_zmk_layer and chunkList its row partition; bindings are
required to start with a non-space character, which holds for every
binding the tokenizer produces (they are stripped and nonempty). -/
theorem claim_C5_thumb_row_indent (bindings : List String) (cols w : Nat)
    (row : List String)
    (hb : ∀ b ∈ bindings, headNonSpace b = true)
    (hm : row ∈ chunkList cols bindings) :
    leadingSpaces (layerRowText cols w row) =
      if row.length < cols then 4 + 3 * (w + 1) else 4 := by
  have hrow : row ≠ [] := chunkList_mem_nonempty cols bindings row hm
  have hbr : ∀ b ∈ row, headNonSpace b = true := fun b hb' =>
    hb b (chunkList_mem_subset cols bindings row hm b hb')

  unfold layerRowText
  by_cases hlt : row.length < cols
  · rw [if_pos hlt, if_pos hlt]
    exact leadingSpaces_indent_row w (4 + 3 * (w + 1)) row hrow hbr
  · rw [if_neg hlt, if_neg hlt]
    have h4 : ("    " : String) = spacesStr 4 := rfl
    rw [h4]
    exact leadingSpaces_indent_row w 4 row hrow hbr

/-- Witness for claim C5 at a concrete layer: a 2-element row with cols =
10 and width 7 is a thumb row indented by 4 + 3*8 = 28 spaces. -/
theorem claim_C5_thumb_row_indent_witness :
    leadingSpaces (layerRowText 10 7 ["&kp A", "&sk LSHFT"]) = 28 := by
  have h := claim_C5_thumb_row_indent ["&kp A", "&sk LSHFT"] 10 7
    ["&kp A", "&sk LSHFT"] (by decide)
    (by rw [show chunkList 10 ["&kp A", "&sk LSHFT"] = [["&kp A", "&sk LSHFT"]] from by
      decide]; simp)
  simpa using h

/-- Concatenation of every collected layer's bindings, as built by the
all_bindings loop of format_keymap lines 353-355. -/
def fileBindings (content : String) : List String :=
  (collect_zmk_layers content (extract_key_macros content)).flatMap
    (fun e => e.bindings)

/-- Python max(len(key) for key in l) if l else 0, on the length measure
used by computeGlobalWidth. -/
def pythonMaxLen : List String → Nat
  | [] => 0
  | b :: bs => bs.foldl (fun a s => Nat.max a s.length) b.data.length

theorem foldl_max_bounds (bs : List String) : ∀ a : Nat,
    (a ≤ bs.foldl (fun x s => Nat.max x s.length) a) ∧
    (∀ s ∈ bs, s.length ≤ bs.foldl (fun x s => Nat.max x s.length) a) ∧
    (bs.foldl (fun x s => Nat.max x s.length) a = a ∨
      ∃ s ∈ bs, bs.foldl (fun x s => Nat.max x s.length) a = s.length) := by
  induction bs with
  | nil => intro a; exact ⟨Nat.le_refl a, by simp, Or.inl rfl⟩
  | cons b t ih =>
    intro a
    have iht := ih (Nat.max a b.length)
    simp only [List.foldl_cons]
    refine ⟨Nat.le_trans (Nat.le_max_left _ _) iht.1, ?_, ?_⟩
    · intro s hs
      cases hs with
      | head => exact Nat.le_trans (Nat.le_max_right _ _) iht.1
      | tail _ hs' => exact iht.2.1 s hs'
    · cases iht.2.2 with
      | inl h =>
        cases Nat.le_total b.length a with
        | inl h' => exact Or.inl (h.trans (Nat.max_eq_left h'))
        | inr h' => exact Or.inr ⟨b, by simp, h.trans (Nat.max_eq_right h')⟩
      | inr h =>
        obtain ⟨s, hs, he⟩ := h
        exact Or.inr ⟨s, by simp [hs], he⟩

theorem padRow_length (w : Nat) (row : List String) :
    (padRow w row).length = row.length := by
  induction row with
  | nil => rfl
  | cons k rest ih =>
    cases rest with
    | nil => rfl
    | cons r rs =>
      show (pyLjust k w :: padRow w (r :: rs)).length = (k :: r :: rs).length
      simp only [List.length_cons] at ih ⊢
      omega

theorem padRow_dropLast (w : Nat) (row : List String) :
    (padRow w row).dropLast = row.dropLast.map (fun k => pyLjust k w) := by
  induction row with
  | nil => rfl
  | cons k rest ih =>
    cases rest with
    | nil => rfl
    | cons r rs =>
      show (pyLjust k w :: padRow w (r :: rs)).dropLast =
        ((k :: r :: rs).dropLast).map (fun k => pyLjust k w)
      have hne : padRow w (r :: rs) ≠ [] := by
        intro h
        have := padRow_length w (r :: rs)
        rw [h] at this
        simp at this
      rw [List.dropLast_cons_of_ne_nil hne]
      rw [show (k :: r :: rs).dropLast = k :: (r :: rs).dropLast from
        List.dropLast_cons_of_ne_nil (by simp)]
      rw [List.map_cons, ih]

theorem pyLjust_length_of_le (k : String) (w : Nat) (h : k.length ≤ w) :
    (pyLjust k w).length = w := by
  unfold pyLjust
  show (k.data ++ List.replicate (w - k.data.length) ' ').length = w
  rw [List.length_append, List.length_replicate]
  have : k.length = k.data.length := rfl
  omega

/-- Claim C1: the global width of a file is the maximum binding length
over all collected layer regions (0 when there are none), and every
binding that is not last in its row is emitted, via padRow inside
format_zmk_layer, left-justified to exactly that global width. -/
theorem claim_C1_global_width_consistency (content : String) (cols : Nat) :
    (∀ b ∈ fileBindings content, b.length ≤ fileGlobalWidth content) ∧
    (fileBindings content = [] → fileGlobalWidth content = 0) ∧
    (fileBindings content ≠ [] →
      ∃ b ∈ fileBindings content, b.length = fileGlobalWidth content) ∧
    (∀ e ∈ collect_zmk_layers content (extract_key_macros content),
      ∀ row ∈ chunkList cols e.bindings,
        ∀ p ∈ (padRow (fileGlobalWidth content) row).dropLast,
          p.length = fileGlobalWidth content) := by
  have hfb : fileBindings content =
      (collect_zmk_layers content (extract_key_macros content)).flatMap
        (fun e => e.bindings) := rfl
  have hgw : fileGlobalWidth content = pythonMaxLen (fileBindings content) := rfl
  have hmax : ∀ b ∈ fileBindings content, b.length ≤ fileGlobalWidth content := by
    intro b hb
    cases hfbc : fileBindings content with
    | nil => rw [hfbc] at hb; simp at hb
    | cons b0 bs =>
      rw [hfbc] at hb
      rw [hgw, hfbc]
      simp only [pythonMaxLen]
      have hbounds := foldl_max_bounds bs b0.data.length
      cases hb with
      | head => exact hbounds.1
      | tail _ hb' => exact hbounds.2.1 b hb'
  refine ⟨hmax, ?_, ?_, ?_⟩
  · intro h0
    rw [hgw, h0]
    rfl
  · intro hne
    cases hfbc : fileBindings content with
    | nil => exact absurd hfbc hne
    | cons b0 bs =>
      have hgw2 : fileGlobalWidth content =
          bs.foldl (fun a s => Nat.max a s.length) b0.data.length := by
        rw [hgw, hfbc]
        rfl
      have hbounds := foldl_max_bounds bs b0.data.length
      cases hbounds.2.2 with
      | inl h =>
        refine ⟨b0, by simp, ?_⟩
        rw [hgw2, h]
        rfl
      | inr h =>
        obtain ⟨s, hs, he⟩ := h
        refine ⟨s, by simp [hs], ?_⟩
        rw [hgw2, he]
  · intro e he row hrow p hp
    rw [padRow_dropLast] at hp
    obtain ⟨k, hk, hpk⟩ := List.mem_map.mp hp
    have hkb : k ∈ e.bindings :=
      chunkList_mem_subset cols e.bindings row hrow k (List.dropLast_subset _ hk)
    have hkf : k ∈ fileBindings content := by
      rw [hfb]
      exact List.mem_flatMap.mpr ⟨e, he, hkb⟩
    rw [← hpk]
    exact pyLjust_length_of_le k _ (hmax k hkf)

/-- Witness for claim C1 at a concrete file with two layers: the width is
attained by one of the collected bindings, and the padded cells of a
non-final row column all have exactly that width. -/
theorem claim_C1_global_width_consistency_witness :
    (∃ b ∈ fileBindings "ZMK_LAYER(a, &kp A &b)\nZMK_LAYER(z, &x)",
      b.length = fileGlobalWidth "ZMK_LAYER(a, &kp A &b)\nZMK_LAYER(z, &x)") := by
  have h := (claim_C1_global_width_consistency
    "ZMK_LAYER(a, &kp A &b)\nZMK_LAYER(z, &x)" 10).2.2.1
  exact h (by decide)

/-- Claim C6: the layer tokenizer splits only at parenthesis depth zero,
either at the marker character or at a dictionary identifier followed by
whitespace or end of text.  Conjunct 1: at nonzero depth every character
(parentheses included) is appended to the accumulator and the binding
list is untouched.  Conjunct 2: at depth zero a character that is no
parenthesis, no marker and no dictionary match is appended.  Conjuncts 3
and 4: the only two splitting steps.  Conjunct 5: a binding with nested
parenthesized parameters is emitted as one single binding. -/
theorem claim_C6_tokenizer_nesting (key_macros : List String) (fuel : Nat)
    (c : Char) (cs current : List Char) (depth : Int) (acc : List String) :
    (depth ≠ 0 →
      parseBindingsAux key_macros (fuel + 1) (c :: cs) current depth acc =
        parseBindingsAux key_macros fuel cs (current ++ [c])
          (if c = '(' then depth + 1 else if c = ')' then depth - 1 else depth)
          acc) ∧
    (c ≠ '(' → c ≠ ')' → c ≠ '&' →
      findMacroMatch key_macros (c :: cs) = none →
      parseBindingsAux key_macros (fuel + 1) (c :: cs) current 0 acc =
        parseBindingsAux key_macros fuel cs (current ++ [c]) 0 acc) ∧
    (parseBindingsAux key_macros (fuel + 1) ('&' :: cs) current 0 acc =
      parseBindingsAux key_macros fuel cs ['&'] 0 (acc ++ flushBinding current)) ∧
    (∀ m, c ≠ '(' → c ≠ ')' → c ≠ '&' →
      findMacroMatch key_macros (c :: cs) = some m →
      parseBindingsAux key_macros (fuel + 1) (c :: cs) current 0 acc =
        parseBindingsAux key_macros fuel ((c :: cs).drop m.data.length) m.data 0
          (acc ++ flushBinding current)) ∧
    parse_zmk_layer "ZMK_LAYER(l, &mt (LS(A)) B)" [] =
      some ("l", "&mt (LS(A)) B", ["&mt (LS(A)) B"]) := by
  refine ⟨?_, ?_, ?_, ?_, by decide⟩
  · intro hd
    by_cases hc1 : c = '('
    · subst hc1; simp [parseBindingsAux]
    · by_cases hc2 : c = ')'
      · subst hc2; simp [parseBindingsAux]
      · by_cases hc3 : c = '&'
        · subst hc3
          simp [parseBindingsAux, hd]
        · simp [parseBindingsAux, hc1, hc2, hc3, hd]
  · intro hc1 hc2 hc3 hmm
    simp [parseBindingsAux, hc1, hc2, hc3, hmm]
  · simp [parseBindingsAux]
  · intro m hc1 hc2 hc3 hmm
    simp [parseBindingsAux, hc1, hc2, hc3, hmm]

/-- Witness for claim C6: the step equations instantiated at concrete
states of the tokenizer run on the nested example. -/
theorem claim_C6_tokenizer_nesting_witness :
    parseBindingsAux ["XXX"] 4 ['L', 'S', '(', 'A'] ['&', 'm', 't', ' ', '('] 1 [] =
      parseBindingsAux ["XXX"] 3 ['S', '(', 'A'] ['&', 'm', 't', ' ', '(', 'L'] 1 [] ∧
    parseBindingsAux ["XXX"] 2 ['B', ' '] ['&', 'a'] 0 [] =
      parseBindingsAux ["XXX"] 1 [' '] ['&', 'a', 'B'] 0 [] ∧
    parseBindingsAux ["XXX"] 2 ['X', 'X', 'X'] ['&', 'a'] 0 [] =
      parseBindingsAux ["XXX"] 1 [] ['X', 'X', 'X'] 0 ["&a"] := by
  refine ⟨?_, ?_, ?_⟩
  · have h := (claim_C6_tokenizer_nesting ["XXX"] 3 'L' ['S', '(', 'A']
      ['&', 'm', 't', ' ', '('] 1 []).1 (by decide)
    rw [h]
    rfl
  · have h := (claim_C6_tokenizer_nesting ["XXX"] 1 'B' [' ']
      ['&', 'a'] 0 []).2.1 (by decide) (by decide) (by decide) (by decide)
    rw [h]
    rfl
  · have h := (claim_C6_tokenizer_nesting ["XXX"] 1 'X' ['X', 'X']
      ['&', 'a'] 0 []).2.2.2.1 "XXX" (by decide) (by decide) (by decide)
      (by decide)
    rw [h]
    rfl

/-- Claim C7: in the block-macro property splitter, a semicolon closes the
current property exactly when both depth counters are zero and no line
comment is open (conjuncts 1 and 2), and inside a comment every character
up to the end of the line is copied verbatim with no delimiter
interpreted: the state changes only in the accumulator (conjuncts 3
and 4). -/
theorem claim_C7_semicolon_and_comments (st : BlockSplitState)
    (ahead : Option Char) :
    ((macroBlockStep st ';' ahead).current = [] ↔
      st.inComment = false ∧ st.angle = 0 ∧ st.paren = 0) ∧
    (st.inComment = false → st.angle = 0 → st.paren = 0 →
      macroBlockStep st ';' ahead =
        { st with props := st.props ++ flushSemi st.current, current := [] }) ∧
    (∀ c, st.inComment = true → c ≠ '\n' →
      macroBlockStep st c ahead = { st with current := st.current ++ [c] }) ∧
    (st.inComment = true →
      macroBlockStep st '\n' ahead =
        { st with inComment := false, current := st.current ++ ['\n'] }) := by
  refine ⟨?_, ?_, ?_, ?_⟩
  · constructor
    · intro h
      by_cases hic : st.inComment
      · exfalso
        rw [show macroBlockStep st ';' ahead =
            { st with current := st.current ++ [';'] } from by
          simp [macroBlockStep, hic]] at h
        simp at h
      · by_cases ha : st.angle = 0
        · by_cases hp : st.paren = 0
          · exact ⟨by simpa using hic, ha, hp⟩
          · exfalso
            rw [show macroBlockStep st ';' ahead =
                { st with current := st.current ++ [';'] } from by
              simp [macroBlockStep, hic, ha, hp]] at h
            simp at h
        · exfalso
          rw [show macroBlockStep st ';' ahead =
              { st with current := st.current ++ [';'] } from by
            simp [macroBlockStep, hic, ha]] at h
          simp at h
    · rintro ⟨hic, ha, hp⟩
      rw [show macroBlockStep st ';' ahead =
          { st with props := st.props ++ flushSemi st.current, current := [] }
        from by simp [macroBlockStep, hic, ha, hp]]
  · intro hic ha hp
    simp [macroBlockStep, hic, ha, hp]
  · intro c hic hcn
    by_cases hc7 : c = '/'
    · subst hc7
      simp [macroBlockStep, hic]
    · simp [macroBlockStep, hic, hcn, hc7]
  · intro hic
    simp [macroBlockStep, hic]

/-- Witness for claim C7 at a concrete state: with an open angle bracket,
the semicolon does not close the property; with all counters clear and no
comment, it does. -/
theorem claim_C7_semicolon_and_comments_witness :
    ¬ ((macroBlockStep ⟨[], ['a'], 1, 0, false⟩ ';' none).current = []) ∧
    (macroBlockStep ⟨[], ['a'], 0, 0, false⟩ ';' none).current = [] ∧
    macroBlockStep ⟨[], ['a'], 0, 0, true⟩ ';' none =
      ⟨[], ['a', ';'], 0, 0, true⟩ := by
  refine ⟨?_, ?_, ?_⟩
  · intro h
    have := (claim_C7_semicolon_and_comments ⟨[], ['a'], 1, 0, false⟩ none).1.mp h
    simp at this
  · exact ((claim_C7_semicolon_and_comments ⟨[], ['a'], 0, 0, false⟩ none).1.mpr
      ⟨rfl, rfl, rfl⟩)
  · have := (claim_C7_semicolon_and_comments ⟨[], ['a'], 0, 0, true⟩ none).2.2.1
      ';' rfl (by decide)
    rw [this]
    rfl

/-- Claim C8 record (code defect): the splitter attaches a trailing
same-line comment to the following property, not to the property it
follows; the scenario body yields two properties with the comment at the
head of the second, contradicting the source comment at line 177 of
zmk_format.py ("they attach to the preceding property"). -/
theorem claim_C8_comment_attachment_behavior :
    splitProperties "a < 1 2 >; // note\nb (1,2);" =
      ["a < 1 2 >;", "// note\nb (1,2);"] := by
  set_option maxRecDepth 20000 in decide

/-- Claim C4 record (code defect): a construct that starts like a layer
invocation but fails the parse consumes the next collected layer's entry
in the rewrite pass: the malformed line is replaced by the formatted text
of the following well-formed layer and the original text of that layer is
skipped, so neither is the malformed construct copied verbatim nor is the
later region unaffected. -/
theorem claim_C4_malformed_layer_consumes_entry :
    format_keymap "ZMK_LAYER()\nZMK_LAYER(good, &a &b)" 10 =
      "ZMK_LAYER(good,\n             &a &b\n)" ∧
    format_keymap "ZMK_LAYER()\nZMK_LAYER(good, &a &b)" 10 ≠
      "ZMK_LAYER()\nZMK_LAYER(good,\n             &a &b\n)" := by
  refine ⟨?_, ?_⟩
  · set_option maxRecDepth 20000 in decide
  · set_option maxRecDepth 20000 in decide

/-- Claim C10 record (code defect in the source file, intended behavior
shown for the embedding): the embedded format_keymap returns for the
empty file and for an unterminated layer with no error, and the global
width computation is guarded so that an input without bindings yields 0.
The Python source itself cannot run at all: line 368 dedents the
backslash-continuation branch of the rewrite loop to column 0, a syntax
error that aborts the module at import time. -/
theorem claim_C10_total_on_degenerate_inputs :
    format_keymap "" 10 = "" ∧
    format_keymap "ZMK_LAYER(x" 1 = "ZMK_LAYER(x" ∧
    fileGlobalWidth "" = 0 := by
  refine ⟨rfl, ?_, rfl⟩
  set_option maxRecDepth 20000 in decide

/-- Shared helper: when the running balance never returns to zero before
the end of the file, the consumption loop collects every remaining line
and stops at the file's last line. -/
theorem consumeRegion_unterminated (oc cc : Char) (lines : List String) :
    ∀ (fuel i : Nat) (content : String) (depth : Int),
      lines.length ≤ fuel + i + 1 → i < lines.length →
      neverBalancedB oc cc lines fuel i depth = true →
      consumeRegion oc cc lines fuel i content depth =
        ((lines.drop (i + 1)).foldl (fun a l => a ++ "\n" ++ l) content,
          lines.length - 1) := by
  intro fuel
  induction fuel with
  | zero =>
    intro i content depth hlen hi _
    have hdrop : lines.drop (i + 1) = [] :=
      List.drop_of_length_le (by omega)
    show (content, i) = _
    rw [hdrop]
    simp only [List.foldl_nil]
    have : i = lines.length - 1 := by omega
    rw [this]
  | succ fuel ih =>
    intro i content depth hlen hi hnb
    by_cases hin : i + 1 < lines.length
    · rw [show neverBalancedB oc cc lines (fuel + 1) i depth =
          (decide (depth > 0) && neverBalancedB oc cc lines fuel (i + 1)
            (depth + lineDelta oc cc (lines.getD (i + 1) ""))) from by
        simp [neverBalancedB, hin]] at hnb
      simp only [Bool.and_eq_true, decide_eq_true_eq] at hnb
      obtain ⟨hdpos, hnb'⟩ := hnb
      rw [show consumeRegion oc cc lines (fuel + 1) i content depth =
          consumeRegion oc cc lines fuel (i + 1)
            (content ++ "\n" ++ lines.getD (i + 1) "")
            (depth + lineDelta oc cc (lines.getD (i + 1) "")) from by
        simp [consumeRegion, hin, hdpos]]
      rw [ih (i + 1) _ _ (by omega) hin hnb']
      congr 1
      rw [List.drop_eq_getElem_cons hin, List.foldl_cons,
        List.getD_eq_getElem lines "" hin]
    · have hlast : i = lines.length - 1 := by omega
      rw [show consumeRegion oc cc lines (fuel + 1) i content depth =
          (content, i) from by
        simp [consumeRegion, hin]]
      have hdrop : lines.drop (i + 1) = [] :=
        List.drop_of_length_le (by omega)
      rw [hdrop]
      simp only [List.foldl_nil]
      rw [hlast]

theorem startsWith_zmk_not_define (s : String)
    (h : strStartsWith s "ZMK_LAYER(" = true) :
    strStartsWith s "#define" = false := by
  unfold strStartsWith at h ⊢
  have hz : ("ZMK_LAYER(" : String).data = 'Z' :: "MK_LAYER(".data := rfl
  have hdef : ("#define" : String).data = '#' :: "define".data := rfl
  rw [hz] at h
  rw [hdef]
  cases hd : s.data with
  | nil => rw [hd] at h; simp [List.isPrefixOf] at h
  | cons c t =>
    rw [hd] at h
    simp only [List.isPrefixOf, Bool.and_eq_true, beq_iff_eq] at h
    obtain ⟨hc, -⟩ := h
    subst hc
    simp [List.isPrefixOf]

/-- Shared helper: the rewrite-pass step on a line that starts like a
layer invocation, with no pending collected layer entry and a failing
parse, appends the consumed original text verbatim and continues after
the consumed region. -/
theorem rewriteAux_layer_passthrough_step (key_macros : List String)
    (cols : Nat) (lines : List String) (layers : List LayerEntry)
    (global_width fuel i layer_idx : Nat) (acc : List String)
    (hi : i < lines.length)
    (hlayer : strStartsWith (pyStrip (lines.getD i "")) "ZMK_LAYER(" = true)
    (hcont : is_in_backslash_continuation lines i = false)
    (hidx : layers.length ≤ layer_idx)
    (hparse : parse_zmk_layer
      (consumeRegion '(' ')' lines lines.length i (lines.getD i "")
        (lineDelta '(' ')' (lines.getD i ""))).1 key_macros = none) :
    rewriteAux key_macros cols lines layers global_width (fuel + 1) i
      layer_idx acc =
    rewriteAux key_macros cols lines layers global_width fuel
      ((consumeRegion '(' ')' lines lines.length i (lines.getD i "")
        (lineDelta '(' ')' (lines.getD i ""))).2 + 1) layer_idx
      (acc ++ [(consumeRegion '(' ')' lines lines.length i (lines.getD i "")
        (lineDelta '(' ')' (lines.getD i ""))).1]) := by
  have hdef : strStartsWith (pyStrip (lines.getD i "")) "#define" = false :=
    startsWith_zmk_not_define _ hlayer
  have hnlt : ¬ layer_idx < layers.length := by omega
  simp only [rewriteAux, if_pos hi, hdef, Bool.false_and, Bool.false_eq_true,
    if_false, hcont, hlayer, if_true, dif_neg hnlt, hparse]

/-- Claim C3 (amended): for a region whose delimiters never rebalance, the
scanner's extent is the file's last line and every remaining line is
swallowed into the region (conjunct 1); a region that starts like a layer
invocation, fails the layer regex and meets no pending collected entry is
appended to the output byte-for-byte (conjunct 2; the final blank-line
collapse still applies to the assembled file); an unbalanced devicetree
node is instead emitted with trailing whitespace trimmed from each line
(conjunct 3).  No error is raised anywhere: all embedded functions are
total. -/
theorem claim_C3_unterminated_best_effort :
    (∀ (oc cc : Char) (lines : List String) (fuel i : Nat) (content : String)
      (depth : Int),
      lines.length ≤ fuel + i + 1 → i < lines.length →
      neverBalancedB oc cc lines fuel i depth = true →
      consumeRegion oc cc lines fuel i content depth =
        ((lines.drop (i + 1)).foldl (fun a l => a ++ "\n" ++ l) content,
          lines.length - 1)) ∧
    (∀ (key_macros : List String) (cols : Nat) (lines : List String)
      (layers : List LayerEntry) (global_width fuel i layer_idx : Nat)
      (acc : List String),
      i < lines.length →
      strStartsWith (pyStrip (lines.getD i "")) "ZMK_LAYER(" = true →
      is_in_backslash_continuation lines i = false →
      layers.length ≤ layer_idx →
      parse_zmk_layer
        (consumeRegion '(' ')' lines lines.length i (lines.getD i "")
          (lineDelta '(' ')' (lines.getD i ""))).1 key_macros = none →
      rewriteAux key_macros cols lines layers global_width (fuel + 1) i
        layer_idx acc =
      rewriteAux key_macros cols lines layers global_width fuel
        ((consumeRegion '(' ')' lines lines.length i (lines.getD i "")
          (lineDelta '(' ')' (lines.getD i ""))).2 + 1) layer_idx
        (acc ++ [(consumeRegion '(' ')' lines lines.length i (lines.getD i "")
          (lineDelta '(' ')' (lines.getD i ""))).1])) ∧
    (∀ content : String, format_devicetree_node content =
      joinLines ((linesOf content).map pyRstrip)) :=
  ⟨fun oc cc lines fuel i content depth =>
    consumeRegion_unterminated oc cc lines fuel i content depth,
   fun km cols lines layers gw fuel i li acc h1 h2 h3 h4 h5 =>
    rewriteAux_layer_passthrough_step km cols lines layers gw fuel i li acc
      h1 h2 h3 h4 h5,
   format_devicetree_node_eq_rstrip⟩

/-- Witness for claim C3: an unterminated two-line layer region is
consumed to the last line with its text intact, a failing one-line layer
region is passed through verbatim by the rewrite step, and an unbalanced
devicetree node is trailing-whitespace trimmed. -/
theorem claim_C3_unterminated_best_effort_witness :
    consumeRegion '(' ')' ["ZMK_LAYER(x", "y"] 2 0 "ZMK_LAYER(x" 1 =
      ("ZMK_LAYER(x\ny", 1) ∧
    rewriteAux [] 10 ["ZMK_LAYER(x"] [] 0 2 0 0 [] =
      rewriteAux [] 10 ["ZMK_LAYER(x"] [] 0 1 1 0 ["ZMK_LAYER(x"] ∧
    format_devicetree_node "&n \x7b \n x " =
      joinLines ((linesOf "&n \x7b \n x ").map pyRstrip) := by
  refine ⟨?_, ?_, ?_⟩
  · have h := claim_C3_unterminated_best_effort.1 '(' ')'
      ["ZMK_LAYER(x", "y"] 2 0 "ZMK_LAYER(x" 1 (by decide) (by decide)
      (by decide)
    rw [h]
    rfl
  · have h := claim_C3_unterminated_best_effort.2.1 [] 10 ["ZMK_LAYER(x"]
      [] 0 1 0 0 [] (by decide) (by decide) (by decide) (by decide)
      (by decide)
    rw [h]
    rfl
  · exact claim_C3_unterminated_best_effort.2.2 "&n \x7b \n x "

/-- Counterexample for claim C3 as stated: an unbalanced devicetree node
with trailing whitespace is not reproduced byte-for-byte; its trailing
whitespace is removed. -/
theorem claim_C3_byte_for_byte_counterexample :
    format_keymap "&n \x7b  " 10 = "&n \x7b" ∧
    format_keymap "&n \x7b  " 10 ≠ "&n \x7b  " := by
  refine ⟨?_, ?_⟩
  · set_option maxRecDepth 20000 in decide
  · set_option maxRecDepth 20000 in decide

/-- Does a line begin one of the rewritten region kinds (layer invocation,
block macro, devicetree node)?  Lines failing all three are copied
verbatim by the rewrite pass; backslash-continued defines are also copied
verbatim, so they need no exclusion. -/
def triggerLine (l : String) : Bool :=
  strStartsWith (pyStrip l) "ZMK_LAYER(" ||
    (matchBlockHead (pyStrip l)).isSome || isDtNodeStart (pyStrip l)

theorem skipDefineContAux_spec (lines : List String) :
    ∀ (fuel i : Nat) (acc : List String),
      i ≤ (skipDefineContAux lines fuel i acc).2 ∧
      (skipDefineContAux lines fuel i acc).1 ++
        lines.drop (skipDefineContAux lines fuel i acc).2 =
        acc ++ lines.drop i := by
  intro fuel
  induction fuel with
  | zero => intro i acc; exact ⟨Nat.le_refl i, rfl⟩
  | succ fuel ih =>
    intro i acc
    by_cases hc : i < lines.length ∧
        strEndsWith (pyRstrip (lines.getD i "")) "\\" = true
    · rw [show skipDefineContAux lines (fuel + 1) i acc =
          skipDefineContAux lines fuel (i + 1) (acc ++ [lines.getD i ""]) from by
        simp only [skipDefineContAux, if_pos hc]]
      have h2 := ih (i + 1) (acc ++ [lines.getD i ""])
      refine ⟨by omega, ?_⟩
      rw [h2.2, List.append_assoc]
      congr 1
      rw [List.getD_eq_getElem lines "" hc.1]
      rw [List.drop_eq_getElem_cons hc.1]
      rfl
    · rw [show skipDefineContAux lines (fuel + 1) i acc = (acc, i) from by
        simp only [skipDefineContAux, if_neg hc]]
      exact ⟨Nat.le_refl i, rfl⟩

theorem skipDefineChunk_spec (lines : List String) (i : Nat)
    (hi : i < lines.length)
    (hend : strEndsWith (pyRstrip (lines.getD i "")) "\\" = true) :
    i + 1 ≤ (skipDefineChunk lines i).2 ∧
    (skipDefineChunk lines i).1 ++ lines.drop (skipDefineChunk lines i).2 =
      lines.drop i := by
  have hstep : skipDefineContAux lines (lines.length + 1) i [] =
      skipDefineContAux lines lines.length (i + 1) [lines.getD i ""] := by
    simp only [skipDefineContAux, if_pos (And.intro hi hend), List.nil_append]
  have hspec := skipDefineContAux_spec lines lines.length (i + 1)
    [lines.getD i ""]
  have hprog : i + 1 ≤ (skipDefineContAux lines (lines.length + 1) i []).2 := by
    rw [hstep]; exact hspec.1
  have hinv : (skipDefineContAux lines (lines.length + 1) i []).1 ++
      lines.drop (skipDefineContAux lines (lines.length + 1) i []).2 =
      lines.drop i := by
    rw [hstep, hspec.2]
    rw [List.drop_eq_getElem_cons hi, List.getD_eq_getElem lines "" hi]
    rfl
  unfold skipDefineChunk
  by_cases hlt : (skipDefineContAux lines (lines.length + 1) i []).2 <
      lines.length
  · simp only [if_pos hlt]
    refine ⟨by omega, ?_⟩
    rw [List.append_assoc]
    rw [show [lines.getD (skipDefineContAux lines (lines.length + 1) i []).2 ""]
        ++ lines.drop ((skipDefineContAux lines (lines.length + 1) i []).2 + 1) =
        lines.drop (skipDefineContAux lines (lines.length + 1) i []).2 from by
      rw [List.getD_eq_getElem lines "" hlt, List.drop_eq_getElem_cons hlt]
      rfl]
    exact hinv
  · simp only [if_neg hlt]
    exact ⟨hprog, hinv⟩

theorem rewriteAux_no_trigger (key_macros : List String) (cols : Nat)
    (lines : List String) (layers : List LayerEntry) (global_width : Nat)
    (H : ∀ l ∈ lines, triggerLine l = false) :
    ∀ (fuel i layer_idx : Nat) (acc : List String),
      lines.length ≤ fuel + i →
      rewriteAux key_macros cols lines layers global_width fuel i
        layer_idx acc = acc ++ lines.drop i := by
  intro fuel
  induction fuel with
  | zero =>
    intro i layer_idx acc hlen
    rw [show rewriteAux key_macros cols lines layers global_width 0 i
        layer_idx acc = acc from rfl]
    rw [List.drop_of_length_le (by omega), List.append_nil]
  | succ fuel ih =>
    intro i layer_idx acc hlen
    by_cases hi : i < lines.length
    · have hmem : lines.getD i "" ∈ lines := by
        rw [List.getD_eq_getElem lines "" hi]
        exact List.getElem_mem hi
      have htrig := H _ hmem
      simp only [triggerLine, Bool.or_eq_false_iff] at htrig
      obtain ⟨⟨hlay, hblk⟩, hdt⟩ := htrig
      have hblk' : matchBlockHead (pyStrip (lines.getD i "")) = none :=
        Option.not_isSome_iff_eq_none.mp (by rw [hblk]; simp)
      have hdropi : lines.drop i = lines.getD i "" :: lines.drop (i + 1) := by
        rw [List.getD_eq_getElem lines "" hi]
        exact List.drop_eq_getElem_cons hi
      by_cases hb1 : (strStartsWith (pyStrip (lines.getD i "")) "#define" &&
          strEndsWith (pyRstrip (lines.getD i "")) "\\") = true
      · rw [show rewriteAux key_macros cols lines layers global_width
            (fuel + 1) i layer_idx acc =
            rewriteAux key_macros cols lines layers global_width fuel
              (skipDefineChunk lines i).2 layer_idx
              (acc ++ (skipDefineChunk lines i).1) from by
          simp only [rewriteAux, if_pos hi, hb1, if_true]]
        simp only [Bool.and_eq_true] at hb1
        have hchunk := skipDefineChunk_spec lines i hi hb1.2
        rw [ih _ layer_idx _ (by omega)]
        rw [List.append_assoc, hchunk.2]
      · by_cases hb2 : is_in_backslash_continuation lines i = true
        · rw [show rewriteAux key_macros cols lines layers global_width
              (fuel + 1) i layer_idx acc =
              rewriteAux key_macros cols lines layers global_width fuel
                (i + 1) layer_idx (acc ++ [lines.getD i ""]) from by
          simp only [rewriteAux, if_pos hi, if_neg hb1, hb2, if_true]]
          rw [ih _ layer_idx _ (by omega)]
          rw [List.append_assoc, hdropi]
          rfl
        · rw [show rewriteAux key_macros cols lines layers global_width
              (fuel + 1) i layer_idx acc =
              rewriteAux key_macros cols lines layers global_width fuel
                (i + 1) layer_idx (acc ++ [lines.getD i ""]) from by
          simp only [rewriteAux, if_pos hi, if_neg hb1, hb2, Bool.false_eq_true,
            if_false, hlay, hblk', hdt]]
          rw [ih _ layer_idx _ (by omega)]
          rw [List.append_assoc, hdropi]
          rfl
    · rw [show rewriteAux key_macros cols lines layers global_width
          (fuel + 1) i layer_idx acc = acc from by
        simp only [rewriteAux, if_neg hi]]
      rw [List.drop_of_length_le (by omega), List.append_nil]

/-- Shared helper: on a file in which no line begins a recognized region,
format_keymap is exactly the blank-line collapse of the input. -/
theorem format_keymap_eq_collapse (s : String) (cols : Nat)
    (H : ∀ l ∈ linesOf s, triggerLine l = false) :
    format_keymap s cols = collapseBlank s := by
  show collapseBlank (joinLines (rewriteAux (extract_key_macros s) cols
    (linesOf s) (collect_zmk_layers s (extract_key_macros s))
    (computeGlobalWidth (collect_zmk_layers s (extract_key_macros s)))
    ((linesOf s).length + 1) 0 0 [])) = collapseBlank s
  rw [rewriteAux_no_trigger _ _ _ _ _ H ((linesOf s).length + 1) 0 0 []
    (by omega)]
  rw [List.drop_zero, List.nil_append, joinLines_linesOf]

/-- Claim C2 (amended): format_keymap is not idempotent in general (see
the counterexample); it is idempotent whenever neither the input nor its
formatted output contains a line that begins a recognized region, in
which case formatting is the blank-line collapse, which is idempotent. -/
theorem claim_C2_idempotence_on_passthrough (s : String) (cols : Nat)
    (h1 : ∀ l ∈ linesOf s, triggerLine l = false)
    (h2 : ∀ l ∈ linesOf (format_keymap s cols), triggerLine l = false) :
    format_keymap (format_keymap s cols) cols = format_keymap s cols := by
  rw [format_keymap_eq_collapse (format_keymap s cols) cols h2]
  rw [format_keymap_eq_collapse s cols h1]
  exact collapseBlank_collapseBlank s

/-- Witness for claim C2 at a concrete passthrough file with a blank-line
run. -/
theorem claim_C2_idempotence_on_passthrough_witness :
    format_keymap (format_keymap "hello\n\n\n\nworld" 10) 10 =
      format_keymap "hello\n\n\n\nworld" 10 :=
  claim_C2_idempotence_on_passthrough "hello\n\n\n\nworld" 10
    (by decide) (by set_option maxRecDepth 20000 in decide)

/-- Counterexample for claim C2 as stated: a comment containing an
unbalanced parenthesis makes a block macro swallow a later layer; the
swallowed layer is collected (and sets the global width) on the first
pass but is no longer collected when the output is formatted again, so
the second pass re-pads the first layer with a smaller width. -/
theorem claim_C2_idempotence_counterexample :
    format_keymap (format_keymap
      "ZMK_LAYER(s, &x &y)\nZMK_MACRO(m, a; // (\n)\nZMK_LAYER(big, &verylonglong)"
      10) 10 ≠
    format_keymap
      "ZMK_LAYER(s, &x &y)\nZMK_MACRO(m, a; // (\n)\nZMK_LAYER(big, &verylonglong)"
      10 := by
  set_option maxRecDepth 40000 in decide

end ZmkFormat
